import Mathlib

/-!
Shallow embedding of the Tower of Hanoi visualizer (`src/App.svelte`).

The component's script section holds a handful of module-level mutable
variables (`disks`, `rods`, `moves`, `currentMoveIndex`, `isPlaying`,
`speed`, `totalMoves`, `intervalId`, `startTime`) and functions mutating
them (`initializeGame`, `calculateMoves`, `executeMove`, `startAnimation`,
`stopAnimation`, `resetGame`, `stepForward`, `stepBackward`, `updateSpeed`,
`updateDisks`).  We model the variables as a record `GameState` and each
function as a state transformer `GameState → GameState`.

Rods are `DiskType[][]` in the source: a length-3 array of stacks, top of a
stack being the LAST array element (`push`/`pop` act on the end).  We model
them as `List (List DiskType)`; JavaScript `rods[i]` reads become
`List.getD · i []` and `rods[i] = v` writes become `List.set`.  The moves
produced by the planner only ever index rods 0, 1, 2, so the out-of-range
defaults are never exercised on the states the component builds.

`window.setInterval` identifiers are modelled as `Option Nat` (`null` is
`none`); timestamps as `Option Nat`.  `startAnimation` takes the ambient
`Date.now()` value and the fresh interval id as explicit parameters.
-/

structure DiskType where
  id : Nat
  size : Nat
deriving DecidableEq, Repr

structure Move where
  «from» : Nat
  «to» : Nat
deriving DecidableEq, Repr

/-- The recursive move planner `calculateMoves(n, source, target, auxiliary)`.
The source recurses with base case `n === 1`; it has NO case for `n = 0`
(there it recurses forever on negative arguments — captured faithfully by
`calculateMovesFuel` below).  The `0` equation here is a totalization
artifact required by Lean and is never produced by the source. -/
def calculateMoves : Nat → Nat → Nat → Nat → List Move
  | 0, _, _, _ => []
  | 1, source, target, _ => [⟨source, target⟩]
  | n + 2, source, target, auxiliary =>
      calculateMoves (n + 1) source auxiliary target
        ++ [⟨source, target⟩]
        ++ calculateMoves (n + 1) auxiliary target source

/-- Fuel-indexed transcription of the source's `calculateMoves`, faithful at
every integer input: the only base case is `n === 1`, and otherwise the
function recurses on `n - 1` twice.  `none` means the recursion did not
complete within `fuel` nested calls; the source diverges at `n` exactly when
this returns `none` for every fuel. -/
def calculateMovesFuel : Nat → Int → Nat → Nat → Nat → Option (List Move)
  | 0, _, _, _, _ => none
  | fuel + 1, n, source, target, auxiliary =>
      if n = 1 then
        some [⟨source, target⟩]
      else
        match calculateMovesFuel fuel (n - 1) source auxiliary target,
              calculateMovesFuel fuel (n - 1) auxiliary target source with
        | some m1, some m2 => some (m1 ++ [⟨source, target⟩] ++ m2)
        | _, _ => none

structure GameState where
  disks : Nat
  rods : List (List DiskType)
  moves : List Move
  currentMoveIndex : Nat
  isPlaying : Bool
  speed : Nat
  totalMoves : Nat
  intervalId : Option Nat
  startTime : Option Nat
deriving DecidableEq, Repr

/-- The module-level initial values of the script's `let` bindings. -/
def initState0 : GameState :=
  { disks := 3, rods := [[], [], []], moves := [], currentMoveIndex := 0,
    isPlaying := false, speed := 1000, totalMoves := 0,
    intervalId := none, startTime := none }

/-- `Array.from({length: numDisks}, (_, i) => ({id: i, size: numDisks - i}))`. -/
def initialStack (numDisks : Nat) : List DiskType :=
  (List.range numDisks).map fun i => ⟨i, numDisks - i⟩

/-- `initializeGame(numDisks)`: sets `disks`, `rods`, `moves`, `totalMoves`
and `currentMoveIndex`.  It touches nothing else: `isPlaying`, `intervalId`
and `startTime` keep their previous values. -/
def initializeGame (numDisks : Nat) (st : GameState) : GameState :=
  let moves := calculateMoves numDisks 0 2 1
  { st with
    disks := numDisks,
    rods := [initialStack numDisks, [], []],
    moves := moves,
    totalMoves := moves.length,
    currentMoveIndex := 0 }

/-- The rods update performed by `executeMove` for a given move:
`const disk = rods[move.from].pop(); if (disk) rods[move.to] = [...rods[move.to], disk]`.
The pop mutates `rods[move.from]` first (to the array without its last
element), and the push then reads the already-popped array — relevant when
`move.from == move.to`. -/
def moveDisk (rods : List (List DiskType)) (m : Move) : List (List DiskType) :=
  match (rods.getD m.«from» []).getLast? with
  | some d =>
      (rods.set m.«from» (rods.getD m.«from» []).dropLast).set m.«to»
        ((rods.set m.«from» (rods.getD m.«from» []).dropLast).getD m.«to» [] ++ [d])
  | none => rods.set m.«from» (rods.getD m.«from» []).dropLast

/-- The rods update performed by `stepBackward` for a given move: pop the top
of `rods[move.to]` and, if present, push it back onto `rods[move.from]`. -/
def undoMove (rods : List (List DiskType)) (m : Move) : List (List DiskType) :=
  match (rods.getD m.«to» []).getLast? with
  | some d =>
      (rods.set m.«to» (rods.getD m.«to» []).dropLast).set m.«from»
        ((rods.set m.«to» (rods.getD m.«to» []).dropLast).getD m.«from» [] ++ [d])
  | none => rods.set m.«to» (rods.getD m.«to» []).dropLast

/-- `executeMove()`: when the index is past the end it stops playback and
clears the interval; otherwise it applies `moves[currentMoveIndex]` to the
rods and increments the index. -/
def executeMove (st : GameState) : GameState :=
  if st.moves.length ≤ st.currentMoveIndex then
    { st with isPlaying := false, intervalId := none }
  else
    { st with
      rods := moveDisk st.rods (st.moves.getD st.currentMoveIndex ⟨0, 0⟩),
      currentMoveIndex := st.currentMoveIndex + 1 }

/-- `startAnimation()`.  `now` is the ambient `Date.now()` and `newId` the
identifier returned by `window.setInterval`. -/
def startAnimation (now newId : Nat) (st : GameState) : GameState :=
  if 0 < st.moves.length ∧ st.currentMoveIndex < st.moves.length ∧ ¬st.isPlaying then
    { st with
      isPlaying := true,
      startTime := match st.startTime with | none => some now | some t => some t,
      intervalId := some newId }
  else st

/-- `stopAnimation()`: `isPlaying = false` and the interval is cleared. -/
def stopAnimation (st : GameState) : GameState :=
  { st with isPlaying := false, intervalId := none }

/-- `resetGame()`: `stopAnimation(); startTime = null; initializeGame(disks)`. -/
def resetGame (st : GameState) : GameState :=
  let st1 := stopAnimation st
  let st2 := { st1 with startTime := none }
  initializeGame st2.disks st2

/-- `stepForward()`: guarded call to `executeMove`. -/
def stepForward (st : GameState) : GameState :=
  if st.currentMoveIndex < st.moves.length then executeMove st else st

/-- `stepBackward()`: decrements the index first, then undoes
`moves[currentMoveIndex]` (the move just undone). -/
def stepBackward (st : GameState) : GameState :=
  if 0 < st.currentMoveIndex then
    { st with
      currentMoveIndex := st.currentMoveIndex - 1,
      rods := undoMove st.rods (st.moves.getD (st.currentMoveIndex - 1) ⟨0, 0⟩) }
  else st

/-- `updateSpeed(newSpeed)` (the timer restart is the pause/start pair). -/
def updateSpeed (newSpeed newId : Nat) (st : GameState) : GameState :=
  let st1 := { st with speed := newSpeed }
  if st1.isPlaying then
    startAnimation 0 newId (stopAnimation st1)
  else st1

/-- `updateDisks(newDisks)`: just `initializeGame(newDisks)`. -/
def updateDisks (newDisks : Nat) (st : GameState) : GameState :=
  initializeGame newDisks st

/-! ## Replay infrastructure

`applyMoves` folds `moveDisk` over a move list; `replay` additionally
reports (by returning `none`) whether some move tried to pop an empty rod.
-/

/-- Apply a list of moves in order. -/
def applyMoves (rods : List (List DiskType)) (ms : List Move) : List (List DiskType) :=
  ms.foldl moveDisk rods

/-- Replay a move list, failing (`none`) at the first move whose source rod
is empty. -/
def replay : List (List DiskType) → List Move → Option (List (List DiskType))
  | rods, [] => some rods
  | rods, m :: ms =>
      if (rods.getD m.«from» []).getLast?.isSome then
        replay (moveDisk rods m) ms
      else none

/-- A rod is well stacked when disk sizes strictly increase from top (last
element) to bottom (first element): along the list, each later (higher) disk
is strictly smaller. -/
def sortedRod (r : List DiskType) : Prop :=
  r.Pairwise fun d e => e.size < d.size

instance (r : List DiskType) : Decidable (sortedRod r) := by
  unfold sortedRod; infer_instance

/-- Every rod of the configuration is well stacked. -/
def allSorted (rods : List (List DiskType)) : Prop :=
  ∀ r ∈ rods, sortedRod r

instance (rods : List (List DiskType)) : Decidable (allSorted rods) := by
  unfold allSorted; infer_instance

/-- Multiset of all disks on all rods. -/
def totalDisks (rods : List (List DiskType)) : Multiset DiskType :=
  (rods.map fun r => (r : Multiset DiskType)).sum

/-- One user step of the playback state machine: the two operations wired to
the step buttons. -/
def StepRel (st st' : GameState) : Prop :=
  st' = stepForward st ∨ st' = stepBackward st

/-- States reachable from the initial configuration of `initializeGame n`
(applied to the module-level initial state) by step operations. -/
def Reachable (n : Nat) (st : GameState) : Prop :=
  Relation.ReflTransGen StepRel (initializeGame n initState0) st

/-- The session state after the first `k` moves of the plan for `n` disks. -/
def stateAt (n k : Nat) : GameState :=
  { initializeGame n initState0 with
    rods := applyMoves [initialStack n, [], []] ((calculateMoves n 0 2 1).take k),
    currentMoveIndex := k }

/-- A concrete mid-playback state: the 3-disk game started at timestamp 100
with interval id 1.  `isPlaying = true`, `startTime = some 100`,
`intervalId = some 1`. -/
def statePlaying : GameState := startAnimation 100 1 (initializeGame 3 initState0)

/-- A concrete state whose pending move's source rod is empty: three empty
rods but a nonempty move list. -/
def stEmptySource : GameState :=
  { initState0 with moves := [⟨0, 2⟩], totalMoves := 1 }

/-! ## List helper lemmas -/

theorem getD_set_ne {α : Type} (l : List α) {i j : Nat} (h : i ≠ j) (x d : α) :
    (l.set i x).getD j d = l.getD j d := by
  simp [List.getD_eq_getElem?_getD, List.getElem?_set_ne h]

theorem getD_set_eq {α : Type} (l : List α) {i : Nat} (h : i < l.length) (x d : α) :
    (l.set i x).getD i d = x := by
  simp [List.getD_eq_getElem?_getD, List.getElem?_set, h]

theorem set_getD_self {α : Type} (l : List α) {i : Nat} (h : i < l.length) (d : α) :
    l.set i (l.getD i d) = l := by
  apply List.ext_getElem?
  intro j
  by_cases hij : i = j
  · subst hij
    rw [List.getElem?_set]
    simp [h, List.getD_eq_getElem l d h]
  · rw [List.getElem?_set_ne hij]

theorem nonempty_split {α : Type} (l : List α) (h : l ≠ []) :
    ∃ l' x, l = l' ++ [x] :=
  ⟨l.dropLast, l.getLast h, (List.dropLast_append_getLast h).symm⟩

/-! ## Basic facts about the replay infrastructure -/

theorem replay_cons_pos (rods : List (List DiskType)) (m : Move) (ms : List Move)
    (h : (rods.getD m.«from» []).getLast?.isSome) :
    replay rods (m :: ms) = replay (moveDisk rods m) ms := by
  show (if (rods.getD m.«from» []).getLast?.isSome then replay (moveDisk rods m) ms else none) = _
  rw [if_pos h]

theorem replay_cons_neg (rods : List (List DiskType)) (m : Move) (ms : List Move)
    (h : ¬(rods.getD m.«from» []).getLast?.isSome) :
    replay rods (m :: ms) = none := by
  show (if (rods.getD m.«from» []).getLast?.isSome then replay (moveDisk rods m) ms else none) = _
  rw [if_neg h]

theorem length_moveDisk (rods : List (List DiskType)) (m : Move) :
    (moveDisk rods m).length = rods.length := by
  unfold moveDisk
  cases h : (rods.getD m.«from» []).getLast? <;> simp

theorem length_applyMoves (ms : List Move) :
    ∀ rods, (applyMoves rods ms).length = rods.length := by
  induction ms with
  | nil => intro rods; rfl
  | cons m ms ih =>
      intro rods
      show (applyMoves (moveDisk rods m) ms).length = _
      rw [ih, length_moveDisk]

theorem replay_append (xs ys : List Move) :
    ∀ rods, replay rods (xs ++ ys) = (replay rods xs).bind fun r => replay r ys := by
  induction xs with
  | nil => intro rods; rfl
  | cons m xs ih =>
      intro rods
      show replay rods (m :: (xs ++ ys)) = _
      by_cases hpop : (rods.getD m.«from» []).getLast?.isSome
      · rw [replay_cons_pos _ _ _ hpop, replay_cons_pos _ _ _ hpop, ih]
      · rw [replay_cons_neg _ _ _ hpop, replay_cons_neg _ _ _ hpop]
        rfl

theorem replay_eq_applyMoves (ms : List Move) :
    ∀ rods r, replay rods ms = some r → applyMoves rods ms = r := by
  induction ms with
  | nil =>
      intro rods r h
      simpa [replay, applyMoves] using h
  | cons m ms ih =>
      intro rods r h
      by_cases hpop : (rods.getD m.«from» []).getLast?.isSome
      · rw [replay_cons_pos _ _ _ hpop] at h
        exact ih _ _ h
      · rw [replay_cons_neg _ _ _ hpop] at h
        exact absurd h (by simp)

/-- `moveDisk` on a nonempty source rod, written with explicit `set`s. -/
theorem moveDisk_split (rods : List (List DiskType)) (m : Move) (rest : List DiskType)
    (d : DiskType) (hf : rods.getD m.«from» [] = rest ++ [d]) (hne : m.«from» ≠ m.«to») :
    moveDisk rods m = (rods.set m.«from» rest).set m.«to» (rods.getD m.«to» [] ++ [d]) := by
  unfold moveDisk
  rw [hf, List.getLast?_concat, List.dropLast_concat]
  simp only []
  rw [getD_set_ne _ hne]

/-- `stepBackward`'s rod update exactly inverts `executeMove`'s when the move
popped a nonempty source rod onto a distinct in-range target rod. -/
theorem undoMove_moveDisk (rods : List (List DiskType)) (m : Move) (rest : List DiskType)
    (d : DiskType) (hf : rods.getD m.«from» [] = rest ++ [d])
    (hfl : m.«from» < rods.length) (htl : m.«to» < rods.length)
    (hne : m.«from» ≠ m.«to») :
    undoMove (moveDisk rods m) m = rods := by
  rw [moveDisk_split rods m rest d hf hne]
  unfold undoMove
  rw [getD_set_eq _ (by rw [List.length_set]; exact htl)]
  rw [List.getLast?_concat, List.dropLast_concat]
  simp only []
  rw [List.set_set]
  rw [getD_set_ne _ (Ne.symm hne), getD_set_eq _ hfl]
  rw [List.set_comm _ _ _ (Ne.symm hne), List.set_set, ← hf,
    set_getD_self _ hfl, set_getD_self _ htl]

theorem replay_pop_success (ms : List Move) (rods r : List (List DiskType))
    (h : replay rods ms = some r) (k : Nat) (hk : k < ms.length) :
    (applyMoves rods (ms.take k)).getD ((ms.getD k ⟨0, 0⟩).«from») [] ≠ [] := by
  rw [← List.take_append_drop k ms, replay_append] at h
  cases h1 : replay rods (ms.take k) with
  | none => rw [h1] at h; exact absurd h (by simp)
  | some r1 =>
      rw [h1] at h
      replace h : replay r1 (List.drop k ms) = some r := h
      rw [List.drop_eq_getElem_cons hk] at h
      by_cases hpop : (r1.getD (ms[k]).«from» []).getLast?.isSome
      · rw [replay_eq_applyMoves _ _ _ h1, List.getD_eq_getElem ms _ hk]
        exact List.getLast?_isSome.mp hpop
      · rw [replay_cons_neg _ _ _ hpop] at h
        exact absurd h (by simp)

/-! ## Sortedness helpers -/

theorem allSorted_getD (rods : List (List DiskType)) (h : allSorted rods) (i : Nat) :
    sortedRod (rods.getD i []) := by
  by_cases hi : i < rods.length
  · rw [List.getD_eq_getElem _ _ hi]
    exact h _ (List.getElem_mem hi)
  · rw [List.getD_eq_getElem?_getD, List.getElem?_eq_none (by omega)]
    exact List.Pairwise.nil

theorem allSorted_set (rods : List (List DiskType)) (x : List DiskType)
    (h : allSorted rods) (hx : sortedRod x) (i : Nat) : allSorted (rods.set i x) :=
  fun r hr => (List.mem_or_eq_of_mem_set hr).elim (h r) fun e => e ▸ hx

theorem sortedRod_glue (l1 l2 : List DiskType) (h1 : sortedRod l1) (h2 : sortedRod l2)
    (hcross : ∀ x ∈ l1, ∀ y ∈ l2, y.size < x.size) : sortedRod (l1 ++ l2) := by
  unfold sortedRod
  rw [List.pairwise_append]
  exact ⟨h1, h2, hcross⟩

theorem sortedRod_parts (l1 l2 : List DiskType) (h : sortedRod (l1 ++ l2)) :
    sortedRod l1 ∧ sortedRod l2 ∧ ∀ x ∈ l1, ∀ y ∈ l2, y.size < x.size := by
  unfold sortedRod at h ⊢
  rwa [List.pairwise_append] at h

theorem sortedRod_single (d : DiskType) : sortedRod [d] := by
  unfold sortedRod
  simp


theorem applyMoves_append (rods : List (List DiskType)) (xs ys : List Move) :
    applyMoves rods (xs ++ ys) = applyMoves (applyMoves rods xs) ys :=
  List.foldl_append _ _ _ _

theorem take_append2_left {α : Type} (l1 l2 : List α) (x : α) (k : Nat)
    (hk : k ≤ l1.length) : ((l1 ++ [x]) ++ l2).take k = l1.take k := by
  rw [List.take_append_eq_append_take, List.take_append_eq_append_take]
  have h1 : k - l1.length = 0 := by omega
  have h2 : k - (l1 ++ [x]).length = 0 := by
    simp only [List.length_append, List.length_cons, List.length_nil]
    omega
  rw [h1, h2, List.take_zero, List.take_zero, List.append_nil, List.append_nil]

theorem take_append2_right {α : Type} (l1 l2 : List α) (x : α) (k : Nat)
    (hk : l1.length + 1 ≤ k) :
    ((l1 ++ [x]) ++ l2).take k = (l1 ++ [x]) ++ l2.take (k - (l1.length + 1)) := by
  rw [List.take_append_eq_append_take,
    List.take_of_length_le (by simp only [List.length_append, List.length_cons, List.length_nil]; omega)]
  congr 2
  simp

theorem calculateMoves_two (n s t a : Nat) :
    calculateMoves (n + 1 + 1) s t a
      = (calculateMoves (n + 1) s a t ++ [⟨s, t⟩]) ++ calculateMoves (n + 1) a t s := rfl

/-! ## The central replay theorem

For `n ≥ 1` and pairwise-distinct in-range rod indices `s`, `t`, `a`: if the
top `n` disks of rod `s` form `stack`, every disk of `stack` is smaller than
every other disk in play, and all rods are well stacked, then replaying
`calculateMoves n s t a` never pops an empty rod, moves `stack` onto rod `t`,
and keeps every intermediate configuration well stacked. -/

theorem hanoi_replay_sorted :
    ∀ n, 1 ≤ n → ∀ s t a (rods : List (List DiskType)) (rest stack : List DiskType),
    s < rods.length → t < rods.length → a < rods.length →
    s ≠ t → s ≠ a → t ≠ a →
    rods.getD s [] = rest ++ stack → stack.length = n →
    allSorted rods →
    (∀ d ∈ stack, ∀ e ∈ rest, d.size < e.size) →
    (∀ d ∈ stack, ∀ e ∈ rods.getD t [], d.size < e.size) →
    (∀ d ∈ stack, ∀ e ∈ rods.getD a [], d.size < e.size) →
    replay rods (calculateMoves n s t a)
        = some ((rods.set s rest).set t (rods.getD t [] ++ stack))
      ∧ ∀ k, allSorted (applyMoves rods ((calculateMoves n s t a).take k)) := by
  intro n
  induction n with
  | zero => intro h; exact absurd h (by decide)
  | succ m ih =>
    intro _ s t a rods rest stack hs ht ha hst hsa hta hrod hlen hsort hsmr hsmt hsma
    have hrodS : sortedRod (rods.getD s []) := allSorted_getD rods hsort s
    rw [hrod] at hrodS
    obtain ⟨hsrest, hstail, hcross⟩ := sortedRod_parts _ _ hrodS
    cases m with
    | zero =>
      -- n = 1 : the plan is the single move (s, t)
      obtain ⟨b, rfl⟩ : ∃ b, stack = [b] := by
        cases stack with
        | nil => simp at hlen
        | cons b s2 =>
            cases s2 with
            | nil => exact ⟨b, rfl⟩
            | cons c s3 => simp at hlen
      have hpop : (rods.getD s []).getLast?.isSome := by
        rw [hrod, List.getLast?_concat]
        rfl
      have hfinal : moveDisk rods ⟨s, t⟩ = (rods.set s rest).set t (rods.getD t [] ++ [b]) :=
        moveDisk_split rods ⟨s, t⟩ rest b hrod hst
      have hsortT : sortedRod (rods.getD t [] ++ [b]) := by
        refine sortedRod_glue _ _ (allSorted_getD rods hsort t) (sortedRod_single b) ?_
        intro x hx y hy
        rw [List.mem_singleton] at hy
        subst hy
        exact hsmt y (by simp) x hx
      refine ⟨?_, ?_⟩
      · show replay rods [⟨s, t⟩] = _
        rw [replay_cons_pos _ _ _ hpop]
        show some (moveDisk rods ⟨s, t⟩) = _
        rw [hfinal]
      · intro k
        cases k with
        | zero => exact hsort
        | succ k =>
            show allSorted (applyMoves rods (List.take (k + 1) [⟨s, t⟩]))
            rw [List.take_of_length_le (by simp)]
            show allSorted (moveDisk rods ⟨s, t⟩)
            rw [hfinal]
            exact allSorted_set _ _ (allSorted_set _ _ hsort hsrest s) hsortT t
    | succ m' =>
      -- n = m' + 2 : recursive plan M1 ++ [(s, t)] ++ M2
      obtain ⟨b, upper, rfl⟩ : ∃ b upper, stack = b :: upper := by
        cases stack with
        | nil => simp at hlen
        | cons b upper => exact ⟨b, upper, rfl⟩
      have hlenU : upper.length = m' + 1 := by
        simpa using hlen
      have hbu : ∀ d ∈ upper, d.size < b.size := (List.pairwise_cons.mp hstail).1
      have hupperS : sortedRod upper := (List.pairwise_cons.mp hstail).2
      -- Phase 1: move `upper` from rod s to rod a (aux t)
      obtain ⟨R1, S1⟩ :=
        ih (by omega) s a t rods (rest ++ [b]) upper hs ha ht hsa hst (Ne.symm hta)
          (by rw [hrod, List.append_cons])
          hlenU hsort
          (by
            intro d hd e he
            rw [List.mem_append] at he
            rcases he with he | he
            · exact hsmr d (List.mem_cons_of_mem _ hd) e he
            · rw [List.mem_singleton] at he
              subst he
              exact hbu d hd)
          (fun d hd => hsma d (List.mem_cons_of_mem _ hd))
          (fun d hd => hsmt d (List.mem_cons_of_mem _ hd))
      -- facts about the state after phase 1
      have g1s : ((rods.set s (rest ++ [b])).set a (rods.getD a [] ++ upper)).getD s []
          = rest ++ [b] := by
        rw [getD_set_ne _ (Ne.symm hsa), getD_set_eq _ hs]
      have g1t : ((rods.set s (rest ++ [b])).set a (rods.getD a [] ++ upper)).getD t []
          = rods.getD t [] := by
        rw [getD_set_ne _ (Ne.symm hta), getD_set_ne _ hst]
      have hpop1 : (((rods.set s (rest ++ [b])).set a (rods.getD a [] ++ upper)).getD s
          []).getLast?.isSome := by
        rw [g1s, List.getLast?_concat]
        rfl
      -- the middle move lands in the canonical mid-state rods₂
      have h2 : moveDisk ((rods.set s (rest ++ [b])).set a (rods.getD a [] ++ upper)) ⟨s, t⟩
          = ((rods.set s rest).set a (rods.getD a [] ++ upper)).set t
              (rods.getD t [] ++ [b]) := by
        rw [moveDisk_split _ ⟨s, t⟩ rest b g1s hst, g1t]
        congr 1
        rw [List.set_comm _ _ _ (Ne.symm hsa), List.set_set]
      have g2a : (((rods.set s rest).set a (rods.getD a [] ++ upper)).set t
          (rods.getD t [] ++ [b])).getD a [] = rods.getD a [] ++ upper := by
        rw [getD_set_ne _ hta, getD_set_eq _ (by rw [List.length_set]; exact ha)]
      have g2t : (((rods.set s rest).set a (rods.getD a [] ++ upper)).set t
          (rods.getD t [] ++ [b])).getD t [] = rods.getD t [] ++ [b] :=
        getD_set_eq _ (by rw [List.length_set, List.length_set]; exact ht) _ _
      have g2s : (((rods.set s rest).set a (rods.getD a [] ++ upper)).set t
          (rods.getD t [] ++ [b])).getD s [] = rest := by
        rw [getD_set_ne _ (Ne.symm hst), getD_set_ne _ (Ne.symm hsa), getD_set_eq _ hs]
      have sorted2 : allSorted (((rods.set s rest).set a (rods.getD a [] ++ upper)).set t
          (rods.getD t [] ++ [b])) := by
        refine allSorted_set _ _ (allSorted_set _ _ (allSorted_set _ _ hsort hsrest s) ?_ a) ?_ t
        · refine sortedRod_glue _ _ (allSorted_getD rods hsort a) hupperS ?_
          intro x hx y hy
          exact hsma y (List.mem_cons_of_mem _ hy) x hx
        · refine sortedRod_glue _ _ (allSorted_getD rods hsort t) (sortedRod_single b) ?_
          intro x hx y hy
          rw [List.mem_singleton] at hy
          subst hy
          exact hsmt y (by simp) x hx
      -- Phase 2: move `upper` from rod a to rod t (aux s)
      obtain ⟨R2, S2⟩ :=
        ih (by omega) a t s
          (((rods.set s rest).set a (rods.getD a [] ++ upper)).set t (rods.getD t [] ++ [b]))
          (rods.getD a []) upper
          (by simp only [List.length_set]; exact ha)
          (by simp only [List.length_set]; exact ht)
          (by simp only [List.length_set]; exact hs)
          (Ne.symm hta) (Ne.symm hsa) (Ne.symm hst)
          g2a hlenU sorted2
          (fun d hd => hsma d (List.mem_cons_of_mem _ hd))
          (by
            intro d hd e he
            rw [g2t, List.mem_append] at he
            rcases he with he | he
            · exact hsmt d (List.mem_cons_of_mem _ hd) e he
            · rw [List.mem_singleton] at he
              subst he
              exact hbu d hd)
          (by
            intro d hd e he
            rw [g2s] at he
            exact hsmr d (List.mem_cons_of_mem _ hd) e he)
      -- the final state of phase 2 is the target state
      have hfin : ((((rods.set s rest).set a (rods.getD a [] ++ upper)).set t
              (rods.getD t [] ++ [b])).set a (rods.getD a [])).set t
            ((((rods.set s rest).set a (rods.getD a [] ++ upper)).set t
              (rods.getD t [] ++ [b])).getD t [] ++ upper)
          = (rods.set s rest).set t (rods.getD t [] ++ (b :: upper)) := by
        rw [g2t, List.set_comm _ _ _ hta, List.set_set, List.set_set]
        have hWa : (rods.set s rest).set a (rods.getD a []) = rods.set s rest := by
          rw [← getD_set_ne rods hsa rest ([] : List DiskType)]
          exact set_getD_self _ (by rw [List.length_set]; exact ha) _
        rw [hWa, List.append_assoc, List.singleton_append]
      have hA1 : applyMoves rods (calculateMoves (m' + 1) s a t)
          = (rods.set s (rest ++ [b])).set a (rods.getD a [] ++ upper) :=
        replay_eq_applyMoves _ _ _ R1
      refine ⟨?_, ?_⟩
      · -- replay of the whole plan
        rw [calculateMoves_two, replay_append, replay_append, R1]
        show (Option.bind (replay ((rods.set s (rest ++ [b])).set a (rods.getD a [] ++ upper))
            [⟨s, t⟩]) fun r => replay r (calculateMoves (m' + 1) a t s)) = _
        rw [replay_cons_pos _ _ _ hpop1]
        show replay (moveDisk ((rods.set s (rest ++ [b])).set a (rods.getD a [] ++ upper))
            ⟨s, t⟩) (calculateMoves (m' + 1) a t s) = _
        rw [h2, R2, hfin]
      · -- every prefix of the plan keeps the rods well stacked
        intro k
        rw [calculateMoves_two]
        by_cases hk : k ≤ (calculateMoves (m' + 1) s a t).length
        · rw [take_append2_left _ _ _ _ hk]
          exact S1 k
        · rw [take_append2_right _ _ _ _ (by omega)]
          rw [applyMoves_append, applyMoves_append, hA1]
          rw [show applyMoves ((rods.set s (rest ++ [b])).set a (rods.getD a [] ++ upper))
              [(⟨s, t⟩ : Move)]
              = ((rods.set s rest).set a (rods.getD a [] ++ upper)).set t
                  (rods.getD t [] ++ [b]) from h2]
          exact S2 _

/-! ## Consequences of the central theorem -/

theorem length_calculateMoves :
    ∀ n, 1 ≤ n → ∀ s t a, (calculateMoves n s t a).length = 2 ^ n - 1 := by
  intro n
  induction n with
  | zero => intro h; exact absurd h (by decide)
  | succ k ih =>
    intro _ s t a
    cases k with
    | zero => rfl
    | succ k' =>
        rw [calculateMoves_two]
        rw [List.length_append, List.length_append, ih (by omega) s a t,
          ih (by omega) a t s]
        have h1 : 1 ≤ 2 ^ (k' + 1) := Nat.one_le_two_pow
        have h2 : 2 ^ (k' + 1 + 1) = 2 ^ (k' + 1) * 2 := pow_succ 2 (k' + 1)
        simp only [List.length_cons, List.length_nil]
        omega

/-- Every move the planner emits stays within the three rod indices it was
called with, and never has equal source and target. -/
theorem calculateMoves_mem_shape :
    ∀ n, 1 ≤ n → ∀ s t a, s ≠ t → s ≠ a → t ≠ a →
    ∀ m ∈ calculateMoves n s t a,
      (m.«from» = s ∨ m.«from» = a ∨ m.«from» = t)
      ∧ (m.«to» = s ∨ m.«to» = a ∨ m.«to» = t) ∧ m.«from» ≠ m.«to» := by
  intro n
  induction n with
  | zero => intro h; exact absurd h (by decide)
  | succ k ih =>
    intro _ s t a hst hsa hta m hm
    cases k with
    | zero =>
        have hm0 : m ∈ [(⟨s, t⟩ : Move)] := hm
        have hm' : m = ⟨s, t⟩ := List.mem_singleton.mp hm0
        subst hm'
        exact ⟨Or.inl rfl, Or.inr (Or.inr rfl), hst⟩
    | succ k' =>
        rw [calculateMoves_two, List.mem_append, List.mem_append] at hm
        rcases hm with (hm | hm) | hm
        · obtain ⟨h1, h2, h3⟩ := ih (by omega) s a t hsa hst (Ne.symm hta) m hm
          exact ⟨by tauto, by tauto, h3⟩
        · have hm' : m = ⟨s, t⟩ := by simpa using hm
          subst hm'
          exact ⟨Or.inl rfl, Or.inr (Or.inr rfl), hst⟩
        · obtain ⟨h1, h2, h3⟩ := ih (by omega) a t s (Ne.symm hta) (Ne.symm hsa) (Ne.symm hst) m hm
          exact ⟨by tauto, by tauto, h3⟩

/-- The canonical starting stack is well stacked (sizes n, n-1, ..., 1 from
bottom to top). -/
theorem sortedRod_initialStack (n : Nat) : sortedRod (initialStack n) := by
  unfold sortedRod initialStack
  rw [List.pairwise_map]
  refine List.Pairwise.imp_of_mem ?_ (List.pairwise_lt_range n)
  intro i j hi hj hij
  show n - j < n - i
  rw [List.mem_range] at hi hj
  omega

theorem allSorted_initRods (n : Nat) : allSorted [initialStack n, [], []] := by
  intro r hr
  rw [List.mem_cons, List.mem_cons, List.mem_singleton] at hr
  rcases hr with rfl | rfl | rfl
  · exact sortedRod_initialStack n
  · exact List.Pairwise.nil
  · exact List.Pairwise.nil

theorem length_initialStack (n : Nat) : (initialStack n).length = n := by
  unfold initialStack
  rw [List.length_map, List.length_range]

/-- The central theorem instantiated at the component's initial state:
replaying the full plan from the canonical start never pops an empty rod,
ends with everything on rod 2 in the original order, and every prefix of the
plan keeps all rods well stacked. -/
theorem plan_replay_main (n : Nat) (hn : 1 ≤ n) :
    replay [initialStack n, [], []] (calculateMoves n 0 2 1)
        = some [[], [], initialStack n]
      ∧ ∀ k, allSorted
          (applyMoves [initialStack n, [], []] ((calculateMoves n 0 2 1).take k)) := by
  have h := hanoi_replay_sorted n hn 0 2 1 [initialStack n, [], []] [] (initialStack n)
    (by simp) (by simp) (by simp) (by decide) (by decide) (by decide)
    rfl (length_initialStack n) (allSorted_initRods n)
    (by intro d _ e he; exact absurd he (List.not_mem_nil e))
    (by intro d _ e he; exact absurd he (List.not_mem_nil e))
    (by intro d _ e he; exact absurd he (List.not_mem_nil e))
  refine ⟨?_, h.2⟩
  rw [h.1]
  rfl

/-! ## Unfolding lemmas for the step operations -/

theorem executeMove_lt (st : GameState) (h : st.currentMoveIndex < st.moves.length) :
    executeMove st
      = { st with
          rods := moveDisk st.rods (st.moves.getD st.currentMoveIndex ⟨0, 0⟩),
          currentMoveIndex := st.currentMoveIndex + 1 } := by
  unfold executeMove
  rw [if_neg (by omega)]

theorem stepForward_lt (st : GameState) (h : st.currentMoveIndex < st.moves.length) :
    stepForward st
      = { st with
          rods := moveDisk st.rods (st.moves.getD st.currentMoveIndex ⟨0, 0⟩),
          currentMoveIndex := st.currentMoveIndex + 1 } := by
  unfold stepForward
  rw [if_pos h]
  exact executeMove_lt st h

theorem stepForward_ge (st : GameState) (h : st.moves.length ≤ st.currentMoveIndex) :
    stepForward st = st := by
  unfold stepForward
  rw [if_neg (by omega)]

theorem stepBackward_pos (st : GameState) (h : 0 < st.currentMoveIndex) :
    stepBackward st
      = { st with
          currentMoveIndex := st.currentMoveIndex - 1,
          rods := undoMove st.rods (st.moves.getD (st.currentMoveIndex - 1) ⟨0, 0⟩) } := by
  unfold stepBackward
  rw [if_pos h]

theorem stepBackward_zero (st : GameState) (h : st.currentMoveIndex = 0) :
    stepBackward st = st := by
  unfold stepBackward
  rw [if_neg (by omega)]

/-! ## Characterizing the states reachable by stepping -/

theorem stateAt_zero (n : Nat) : stateAt n 0 = initializeGame n initState0 := rfl

theorem stateAt_rods (n k : Nat) :
    (stateAt n k).rods
      = applyMoves [initialStack n, [], []] ((calculateMoves n 0 2 1).take k) := rfl

theorem stateAt_moves (n k : Nat) : (stateAt n k).moves = calculateMoves n 0 2 1 := rfl

theorem stateAt_idx (n k : Nat) : (stateAt n k).currentMoveIndex = k := rfl

theorem length_stateAt_rods (n k : Nat) : (stateAt n k).rods.length = 3 := by
  rw [stateAt_rods]
  rw [length_applyMoves]
  rfl

theorem applyMoves_take_succ (n k : Nat) (hk : k < (calculateMoves n 0 2 1).length) :
    applyMoves [initialStack n, [], []] ((calculateMoves n 0 2 1).take (k + 1))
      = moveDisk (applyMoves [initialStack n, [], []] ((calculateMoves n 0 2 1).take k))
          ((calculateMoves n 0 2 1).getD k ⟨0, 0⟩) := by
  rw [List.take_succ, List.getElem?_eq_getElem hk]
  show applyMoves _ (_ ++ [_]) = _
  rw [applyMoves_append, List.getD_eq_getElem _ _ hk]
  rfl

theorem stepForward_stateAt (n k : Nat) (hk : k < (calculateMoves n 0 2 1).length) :
    stepForward (stateAt n k) = stateAt n (k + 1) := by
  rw [stepForward_lt (stateAt n k) hk]
  show ({ stateAt n k with
      rods := moveDisk (applyMoves [initialStack n, [], []]
        ((calculateMoves n 0 2 1).take k)) ((calculateMoves n 0 2 1).getD k ⟨0, 0⟩),
      currentMoveIndex := k + 1 } : GameState) = _
  rw [← applyMoves_take_succ n k hk]
  rfl

/-- The disk popped at step `k` of a valid replay exists: the source rod of
move `k` is nonempty in the state reached after `k` moves. -/
theorem plan_pop_success (n : Nat) (hn : 1 ≤ n) (k : Nat)
    (hk : k < (calculateMoves n 0 2 1).length) :
    (applyMoves [initialStack n, [], []] ((calculateMoves n 0 2 1).take k)).getD
      (((calculateMoves n 0 2 1).getD k ⟨0, 0⟩).«from») [] ≠ [] :=
  replay_pop_success _ _ _ (plan_replay_main n hn).1 k hk

/-- The move at index `k` of the plan, as a member of the plan. -/
theorem plan_getD_mem (n k : Nat) (hk : k < (calculateMoves n 0 2 1).length) :
    (calculateMoves n 0 2 1).getD k ⟨0, 0⟩ ∈ calculateMoves n 0 2 1 := by
  rw [List.getD_eq_getElem _ _ hk]
  exact List.getElem_mem hk

theorem plan_move_shape (n : Nat) (hn : 1 ≤ n) (m : Move)
    (hm : m ∈ calculateMoves n 0 2 1) :
    m.«from» < 3 ∧ m.«to» < 3 ∧ m.«from» ≠ m.«to» := by
  obtain ⟨h1, h2, h3⟩ :=
    calculateMoves_mem_shape n hn 0 2 1 (by decide) (by decide) (by decide) m hm
  refine ⟨?_, ?_, h3⟩ <;> omega

theorem stepBackward_stateAt (n : Nat) (hn : 1 ≤ n) (k : Nat)
    (hk : k < (calculateMoves n 0 2 1).length) :
    stepBackward (stateAt n (k + 1)) = stateAt n k := by
  rw [stepBackward_pos (stateAt n (k + 1)) (by rw [stateAt_idx]; omega)]
  obtain ⟨rest, d, hsplit⟩ := nonempty_split _ (plan_pop_success n hn k hk)
  obtain ⟨hf3, ht3, hne⟩ :=
    plan_move_shape n hn ((calculateMoves n 0 2 1).getD k ⟨0, 0⟩) (plan_getD_mem n k hk)
  have hlen3 :
      (applyMoves [initialStack n, [], []] ((calculateMoves n 0 2 1).take k)).length
        = 3 := by
    rw [length_applyMoves]
    rfl
  have hundo :
      undoMove (stateAt n (k + 1)).rods
          ((stateAt n (k + 1)).moves.getD ((stateAt n (k + 1)).currentMoveIndex - 1) ⟨0, 0⟩)
        = applyMoves [initialStack n, [], []] ((calculateMoves n 0 2 1).take k) := by
    show undoMove (applyMoves [initialStack n, [], []]
        ((calculateMoves n 0 2 1).take (k + 1))) ((calculateMoves n 0 2 1).getD k ⟨0, 0⟩) = _
    rw [applyMoves_take_succ n k hk]
    exact undoMove_moveDisk _ _ rest d hsplit (by omega) (by omega) hne
  rw [hundo]
  rfl

/-- Every state reachable by step operations from `initializeGame n` is the
state after some prefix of the plan, with matching move index. -/
theorem reachable_stateAt (n : Nat) (hn : 1 ≤ n) (st : GameState) (h : Reachable n st) :
    ∃ k, k ≤ (calculateMoves n 0 2 1).length ∧ st = stateAt n k := by
  induction h with
  | refl => exact ⟨0, Nat.zero_le _, (stateAt_zero n).symm⟩
  | tail hab hbc ih =>
      obtain ⟨k, hk, rfl⟩ := ih
      have hbc' : _ = stepForward (stateAt n k) ∨ _ = stepBackward (stateAt n k) := hbc
      rcases hbc' with rfl | rfl
      · by_cases hlt : k < (calculateMoves n 0 2 1).length
        · exact ⟨k + 1, by omega, (stepForward_stateAt n k hlt)⟩
        · refine ⟨k, hk, ?_⟩
          rw [stepForward_ge _ ?_]
          show (calculateMoves n 0 2 1).length ≤ k
          omega
      · cases k with
        | zero =>
            refine ⟨0, Nat.zero_le _, ?_⟩
            rw [stepBackward_zero _ (stateAt_idx n 0)]
        | succ k' =>
            have hlt : k' < (calculateMoves n 0 2 1).length := by omega
            exact ⟨k', by omega, (stepBackward_stateAt n hn k' hlt)⟩

/-! ## Disk conservation -/

theorem totalDisks_cons (r : List DiskType) (rs : List (List DiskType)) :
    totalDisks (r :: rs) = (r : Multiset DiskType) + totalDisks rs := rfl

theorem totalDisks_set (rods : List (List DiskType)) :
    ∀ (i : Nat), i < rods.length → ∀ x : List DiskType,
    totalDisks (rods.set i x) + (rods.getD i [] : Multiset DiskType)
      = totalDisks rods + (x : Multiset DiskType) := by
  induction rods with
  | nil => intro i hi; exact absurd hi (by simp)
  | cons r rs ih =>
      intro i hi x
      cases i with
      | zero =>
          show totalDisks (x :: rs) + (r : Multiset DiskType) = _
          rw [totalDisks_cons, totalDisks_cons]
          abel
      | succ i' =>
          show totalDisks (r :: rs.set i' x) + (rs.getD i' [] : Multiset DiskType) = _
          rw [totalDisks_cons, totalDisks_cons, add_assoc,
            ih i' (by simpa using hi) x, ← add_assoc]

theorem totalDisks_moveDisk (rods : List (List DiskType)) (m : Move)
    (hf : m.«from» < rods.length) (ht : m.«to» < rods.length) :
    totalDisks (moveDisk rods m) = totalDisks rods := by
  unfold moveDisk
  cases hlast : (rods.getD m.«from» []).getLast? with
  | none =>
      have hnil : rods.getD m.«from» [] = [] := List.getLast?_eq_none_iff.mp hlast
      rw [hnil]
      show totalDisks (rods.set m.«from» ([] : List DiskType).dropLast) = _
      rw [show ([] : List DiskType).dropLast = [] from rfl, ← hnil, set_getD_self _ hf]
  | some d =>
      have hne : rods.getD m.«from» [] ≠ [] := by
        intro hcon
        rw [hcon] at hlast
        cases hlast
      obtain ⟨rest, hrest⟩ : ∃ rest, rods.getD m.«from» [] = rest ++ [d] := by
        obtain ⟨rest, x, hx⟩ := nonempty_split _ hne
        refine ⟨rest, ?_⟩
        rw [hx] at hlast ⊢
        rw [List.getLast?_concat] at hlast
        rw [Option.some.inj hlast]
      rw [hrest, List.dropLast_concat]
      have e1 := totalDisks_set (rods.set m.«from» rest) m.«to»
        (by rw [List.length_set]; exact ht)
        ((rods.set m.«from» rest).getD m.«to» [] ++ [d])
      have e2 := totalDisks_set rods m.«from» hf rest
      rw [hrest] at e2
      rw [← Multiset.coe_add] at e2
      rw [← Multiset.coe_add] at e1
      have e2' : totalDisks (rods.set m.«from» rest) + ([d] : Multiset DiskType)
          = totalDisks rods := by
        refine add_right_cancel (b := (rest : Multiset DiskType)) ?_
        calc totalDisks (rods.set m.«from» rest) + ([d] : Multiset DiskType)
                + (rest : Multiset DiskType)
            = totalDisks (rods.set m.«from» rest)
                + ((rest : Multiset DiskType) + ([d] : Multiset DiskType)) := by abel
          _ = totalDisks rods + (rest : Multiset DiskType) := e2
      have e1' : totalDisks ((rods.set m.«from» rest).set m.«to»
            ((rods.set m.«from» rest).getD m.«to» [] ++ [d]))
          = totalDisks (rods.set m.«from» rest) + ([d] : Multiset DiskType) := by
        refine add_right_cancel
          (b := ((rods.set m.«from» rest).getD m.«to» [] : Multiset DiskType)) ?_
        calc totalDisks ((rods.set m.«from» rest).set m.«to»
              ((rods.set m.«from» rest).getD m.«to» [] ++ [d]))
                + ((rods.set m.«from» rest).getD m.«to» [] : Multiset DiskType)
            = totalDisks (rods.set m.«from» rest)
                + (((rods.set m.«from» rest).getD m.«to» [] : Multiset DiskType)
                  + ([d] : Multiset DiskType)) := e1
          _ = totalDisks (rods.set m.«from» rest) + ([d] : Multiset DiskType)
                + ((rods.set m.«from» rest).getD m.«to» [] : Multiset DiskType) := by abel
      rw [e1', e2']

/-- `stepBackward`'s rod update is `executeMove`'s with source and target
swapped. -/
theorem undoMove_eq_moveDisk_swap (rods : List (List DiskType)) (m : Move) :
    undoMove rods m = moveDisk rods ⟨m.«to», m.«from»⟩ := rfl

theorem totalDisks_undoMove (rods : List (List DiskType)) (m : Move)
    (hf : m.«from» < rods.length) (ht : m.«to» < rods.length) :
    totalDisks (undoMove rods m) = totalDisks rods := by
  rw [undoMove_eq_moveDisk_swap]
  exact totalDisks_moveDisk rods ⟨m.«to», m.«from»⟩ ht hf

theorem totalDisks_applyMoves (ms : List Move) :
    ∀ rods, (∀ m ∈ ms, m.«from» < rods.length ∧ m.«to» < rods.length) →
    totalDisks (applyMoves rods ms) = totalDisks rods := by
  induction ms with
  | nil => intro rods _; rfl
  | cons m ms ih =>
      intro rods hm
      show totalDisks (applyMoves (moveDisk rods m) ms) = _
      rw [ih (moveDisk rods m) ?_, totalDisks_moveDisk rods m
        (hm m (List.mem_cons_self m ms)).1 (hm m (List.mem_cons_self m ms)).2]
      intro m' hm'
      rw [length_moveDisk]
      exact hm m' (List.mem_cons_of_mem _ hm')

/-- `executeMove` on an in-range index whose source rod is empty: the rods
are untouched (the JavaScript `if (disk)` guard skips the push, and the pop
of an empty array leaves it empty), yet the index still advances. -/
theorem executeMove_empty_pop (st : GameState)
    (hlt : st.currentMoveIndex < st.moves.length)
    (hempty : st.rods.getD ((st.moves.getD st.currentMoveIndex ⟨0, 0⟩).«from») [] = []) :
    (executeMove st).rods = st.rods
    ∧ (executeMove st).currentMoveIndex = st.currentMoveIndex + 1 := by
  rw [executeMove_lt st hlt]
  refine ⟨?_, rfl⟩
  show moveDisk st.rods (st.moves.getD st.currentMoveIndex ⟨0, 0⟩) = st.rods
  unfold moveDisk
  rw [hempty]
  show st.rods.set _ ([] : List DiskType).dropLast = st.rods
  rw [show ([] : List DiskType).dropLast = [] from rfl]
  by_cases hf : (st.moves.getD st.currentMoveIndex ⟨0, 0⟩).«from» < st.rods.length
  · rw [← hempty, set_getD_self _ hf]
  · exact List.set_eq_of_length_le (by omega)

/-! ## Behaviour of the source's planner at non-positive inputs -/

theorem calculateMovesFuel_succ (f : Nat) (n : Int) (s t a : Nat) :
    calculateMovesFuel (f + 1) n s t a
      = if n = 1 then some [⟨s, t⟩]
        else
          match calculateMovesFuel f (n - 1) s a t,
                calculateMovesFuel f (n - 1) a t s with
          | some m1, some m2 => some (m1 ++ [⟨s, t⟩] ++ m2)
          | _, _ => none := rfl

/-- Below `1` the recursion of the source never reaches its only base case:
no amount of fuel suffices. -/
theorem calculateMovesFuel_nonpos :
    ∀ fuel (n : Int), n ≤ 0 → ∀ s t a, calculateMovesFuel fuel n s t a = none := by
  intro fuel
  induction fuel with
  | zero => intro n hn s t a; rfl
  | succ f ih =>
      intro n hn s t a
      show (if n = 1 then _ else _) = none
      rw [if_neg (by omega)]
      rw [ih (n - 1) (by omega) s a t, ih (n - 1) (by omega) a t s]

/-- For `n ≥ 1`, with enough fuel, the fueled transcription computes exactly
the total model's move list. -/
theorem calculateMovesFuel_pos :
    ∀ n : Nat, 1 ≤ n → ∀ fuel, n ≤ fuel → ∀ s t a,
    calculateMovesFuel fuel (n : Int) s t a = some (calculateMoves n s t a) := by
  intro n
  induction n with
  | zero => intro h; exact absurd h (by decide)
  | succ k ih =>
      intro _ fuel hfuel s t a
      obtain ⟨f, rfl⟩ : ∃ f, fuel = f + 1 := ⟨fuel - 1, by omega⟩
      rw [calculateMovesFuel_succ]
      cases k with
      | zero =>
          rw [if_pos (by norm_num)]
          rfl
      | succ k' =>
          rw [if_neg (by push_cast; omega)]
          have hcast : ((k' + 1 + 1 : Nat) : Int) - 1 = ((k' + 1 : Nat) : Int) := by
            push_cast
            ring
          rw [hcast, ih (by omega) f (by omega) s a t, ih (by omega) f (by omega) a t s]
          rw [calculateMoves_two]

theorem totalDisks_initRods (n : Nat) :
    totalDisks [initialStack n, [], []] = (initialStack n : Multiset DiskType) := by
  show (initialStack n : Multiset DiskType)
      + ((([] : List DiskType) : Multiset DiskType)
        + ((([] : List DiskType) : Multiset DiskType) + 0)) = _
  simp

/-! ## The claims -/

/-- C1: for every n in [1, 12], replaying the moves of
`calculateMoves(n, 0, 2, 1)` in order from the rods built by
`initializeGame(n)` — rod 0 holding all n disks largest at bottom, rods 1
and 2 empty — never pops from an empty rod (`replay` returns `some`, and
returns `none` exactly when some move's source rod is empty), and after the
last move all n disks sit on rod 2 in the original order with rods 0 and 1
empty. -/
theorem claim_C1_plan_replay (n : Nat) (h1 : 1 ≤ n) (h12 : n ≤ 12) :
    replay (initializeGame n initState0).rods (calculateMoves n 0 2 1)
      = some [[], [], initialStack n] :=
  (plan_replay_main n h1).1

theorem claim_C1_witness :
    (1 ≤ 3 ∧ 3 ≤ 12)
    ∧ replay (initializeGame 3 initState0).rods (calculateMoves 3 0 2 1)
        = some [[], [], initialStack 3] :=
  ⟨⟨by decide, by decide⟩, claim_C1_plan_replay 3 (by decide) (by decide)⟩

/-- C2: for every n in [1, 12] and any rod indices, `calculateMoves`
returns a sequence of exactly 2^n - 1 moves. -/
theorem claim_C2_plan_length (n : Nat) (h1 : 1 ≤ n) (h12 : n ≤ 12) (s t a : Nat) :
    (calculateMoves n s t a).length = 2 ^ n - 1 :=
  length_calculateMoves n h1 s t a

theorem claim_C2_witness :
    (1 ≤ 3 ∧ 3 ≤ 12) ∧ (calculateMoves 3 0 2 1).length = 2 ^ 3 - 1 :=
  ⟨⟨by decide, by decide⟩, claim_C2_plan_length 3 (by decide) (by decide) 0 2 1⟩

/-- C3: `calculateMoves(3, 0, 2, 1)` is exactly the textbook 7-move solution
(0,2),(0,1),(2,1),(0,2),(1,0),(1,2),(0,2). -/
theorem claim_C3_plan_three :
    calculateMoves 3 0 2 1
      = [⟨0, 2⟩, ⟨0, 1⟩, ⟨2, 1⟩, ⟨0, 2⟩, ⟨1, 0⟩, ⟨1, 2⟩, ⟨0, 2⟩] := by
  decide

/-- C4: in every state reachable from `initializeGame(n)` by any sequence
of `stepForward`/`stepBackward` operations, each rod's disk sizes strictly
increase from top (last list element) to bottom (first element): no disk
ever rests on a smaller one. -/
theorem claim_C4_reachable_sorted (n : Nat) (hn : 1 ≤ n) (st : GameState)
    (h : Reachable n st) : ∀ r ∈ st.rods, sortedRod r := by
  obtain ⟨k, hk, rfl⟩ := reachable_stateAt n hn st h
  rw [stateAt_rods]
  exact (plan_replay_main n hn).2 k

theorem claim_C4_witness :
    1 ≤ 3 ∧ sortedRod ((initializeGame 3 initState0).rods.getD 0 []) :=
  ⟨by decide,
    claim_C4_reachable_sorted 3 (by decide) (initializeGame 3 initState0)
      Relation.ReflTransGen.refl _ (by decide)⟩

/-- C5: from every reachable state with `currentMoveIndex < moves.length`,
`stepForward()` followed immediately by `stepBackward()` restores the rods
and the move index exactly. -/
theorem claim_C5_step_inverse (n : Nat) (hn : 1 ≤ n) (st : GameState)
    (h : Reachable n st) (hlt : st.currentMoveIndex < st.moves.length) :
    (stepBackward (stepForward st)).rods = st.rods
    ∧ (stepBackward (stepForward st)).currentMoveIndex = st.currentMoveIndex := by
  obtain ⟨k, hk, rfl⟩ := reachable_stateAt n hn st h
  have hk' : k < (calculateMoves n 0 2 1).length := hlt
  rw [stepForward_stateAt n k hk', stepBackward_stateAt n hn k hk']
  exact ⟨rfl, rfl⟩

theorem claim_C5_witness :
    (1 ≤ 3
      ∧ (initializeGame 3 initState0).currentMoveIndex
          < (initializeGame 3 initState0).moves.length)
    ∧ (stepBackward (stepForward (initializeGame 3 initState0))).rods
        = (initializeGame 3 initState0).rods
    ∧ (stepBackward (stepForward (initializeGame 3 initState0))).currentMoveIndex
        = (initializeGame 3 initState0).currentMoveIndex :=
  ⟨⟨by decide, by decide⟩,
    claim_C5_step_inverse 3 (by decide) (initializeGame 3 initState0)
      Relation.ReflTransGen.refl (by decide)⟩

/-- C6 counterexample: `statePlaying` is mid-playback (isPlaying true,
interval id 1); `updateDisks 5` leaves isPlaying true and the interval id in
place, so playback does NOT stop and the previous configuration's timer
keeps firing — contradicting the claim that setDiskCount mid-playback stops
playback and silences the old timer. -/
theorem claim_C6_counterexample :
    statePlaying.isPlaying = true
    ∧ (updateDisks 5 statePlaying).isPlaying = true
    ∧ (updateDisks 5 statePlaying).intervalId = some 1 := by
  decide

/-- C6 (amended): `updateDisks(n)` resets disks, rods, moves and
currentMoveIndex to the n-disk initial configuration, but leaves isPlaying,
the interval and startTime untouched: a running playback keeps running and
its timer continues to fire against the new configuration. -/
theorem claim_C6_amended (n : Nat) (st : GameState) :
    (updateDisks n st).rods = [initialStack n, [], []]
    ∧ (updateDisks n st).moves = calculateMoves n 0 2 1
    ∧ (updateDisks n st).currentMoveIndex = 0
    ∧ (updateDisks n st).isPlaying = st.isPlaying
    ∧ (updateDisks n st).intervalId = st.intervalId
    ∧ (updateDisks n st).startTime = st.startTime :=
  ⟨rfl, rfl, rfl, rfl, rfl, rfl⟩

/-- C7 counterexample: at n = 0 the planner's recursion (transcribed
faithfully: base case only at n === 1, recursing on n - 1) never completes —
no fuel bound suffices — so `calculateMoves(0, …)` does not terminate and in
particular does not yield the empty sequence. -/
theorem claim_C7_counterexample :
    ¬∃ (fuel : Nat) (r : List Move), calculateMovesFuel fuel 0 0 2 1 = some r := by
  rintro ⟨fuel, r, hr⟩
  rw [calculateMovesFuel_nonpos fuel 0 (by omega) 0 2 1] at hr
  cases hr

/-- C7 (amended): the planner is total only on n ≥ 1 — with fuel at least n
it terminates with the recursive move list — while at n = 0 it diverges: for
every fuel the transcribed recursion fails to complete. -/
theorem claim_C7_amended :
    (∀ fuel s t a, calculateMovesFuel fuel 0 s t a = none)
    ∧ ∀ n : Nat, 1 ≤ n → ∀ fuel, n ≤ fuel → ∀ s t a,
        calculateMovesFuel fuel (n : Int) s t a = some (calculateMoves n s t a) :=
  ⟨fun fuel s t a => calculateMovesFuel_nonpos fuel 0 (by omega) s t a,
    calculateMovesFuel_pos⟩

theorem claim_C7_witness :
    calculateMovesFuel 4 0 0 2 1 = none
    ∧ (1 ≤ 3 ∧ 3 ≤ 4
      ∧ calculateMovesFuel 4 ((3 : Nat) : Int) 0 2 1 = some (calculateMoves 3 0 2 1)) :=
  ⟨claim_C7_amended.1 4 0 2 1,
    by decide, by decide, claim_C7_amended.2 3 (by decide) 4 (by decide) 0 2 1⟩

/-- C8 counterexample: on the mid-playback state, `initializeGame 3` leaves
isPlaying, startTime and the interval id exactly as they were: it does not
set isPlaying to false, does not set startTime to null, and does not cancel
the running timer — contradicting the claim. -/
theorem claim_C8_counterexample :
    statePlaying.isPlaying = true
    ∧ statePlaying.startTime = some 100
    ∧ statePlaying.intervalId = some 1
    ∧ (initializeGame 3 statePlaying).isPlaying = true
    ∧ (initializeGame 3 statePlaying).startTime = some 100
    ∧ (initializeGame 3 statePlaying).intervalId = some 1 := by
  decide

/-- C8 (amended): `initializeGame` resets currentMoveIndex to 0 (together
with rods, moves, totalMoves) but leaves isPlaying, startTime and the
interval untouched; it is `resetGame` that additionally stops the animation
(isPlaying false, interval cancelled) and clears startTime. -/
theorem claim_C8_amended (n : Nat) (st : GameState) :
    (initializeGame n st).currentMoveIndex = 0
    ∧ (initializeGame n st).isPlaying = st.isPlaying
    ∧ (initializeGame n st).startTime = st.startTime
    ∧ (initializeGame n st).intervalId = st.intervalId
    ∧ (resetGame st).currentMoveIndex = 0
    ∧ (resetGame st).isPlaying = false
    ∧ (resetGame st).startTime = none
    ∧ (resetGame st).intervalId = none :=
  ⟨rfl, rfl, rfl, rfl, rfl, rfl, rfl, rfl⟩

/-- C9 counterexample: in `stEmptySource` the pending move's source rod is
empty, yet `executeMove` raises nothing: it is a total function that
silently returns the same rods with the index advanced by one — there is no
thrown or reported LogicError. -/
theorem claim_C9_counterexample :
    stEmptySource.rods.getD 0 [] = []
    ∧ executeMove stEmptySource = { stEmptySource with currentMoveIndex := 1 } := by
  decide

/-- C9 (amended): stepping when the current move's source rod is empty
silently leaves every rod unchanged and increments currentMoveIndex; no
error condition is raised (executeMove has no error channel at all). -/
theorem claim_C9_amended (st : GameState)
    (hlt : st.currentMoveIndex < st.moves.length)
    (hempty : st.rods.getD ((st.moves.getD st.currentMoveIndex ⟨0, 0⟩).«from») [] = []) :
    (executeMove st).rods = st.rods
    ∧ (executeMove st).currentMoveIndex = st.currentMoveIndex + 1 :=
  executeMove_empty_pop st hlt hempty

theorem claim_C9_witness :
    (stEmptySource.currentMoveIndex < stEmptySource.moves.length
      ∧ stEmptySource.rods.getD
          ((stEmptySource.moves.getD stEmptySource.currentMoveIndex ⟨0, 0⟩).«from») [] = [])
    ∧ (executeMove stEmptySource).rods = stEmptySource.rods
    ∧ (executeMove stEmptySource).currentMoveIndex
        = stEmptySource.currentMoveIndex + 1 :=
  ⟨⟨by decide, by decide⟩, claim_C9_amended stEmptySource (by decide) (by decide)⟩

/-- C10: disk conservation. `executeMove` and `stepBackward` preserve the
multiset of disks across the rods whenever the move they apply addresses
rods in range (as every planner move does); consequently every state
reachable from `initializeGame(n)` holds exactly n disks in total; and
`executeMove` on an empty source rod leaves the rods unchanged while still
incrementing currentMoveIndex. -/
theorem claim_C10_conservation :
    (∀ st : GameState,
        (st.moves.getD st.currentMoveIndex ⟨0, 0⟩).«from» < st.rods.length →
        (st.moves.getD st.currentMoveIndex ⟨0, 0⟩).«to» < st.rods.length →
        totalDisks (executeMove st).rods = totalDisks st.rods)
    ∧ (∀ st : GameState,
        (st.moves.getD (st.currentMoveIndex - 1) ⟨0, 0⟩).«from» < st.rods.length →
        (st.moves.getD (st.currentMoveIndex - 1) ⟨0, 0⟩).«to» < st.rods.length →
        totalDisks (stepBackward st).rods = totalDisks st.rods)
    ∧ (∀ n : Nat, 1 ≤ n → ∀ st, Reachable n st →
        Multiset.card (totalDisks st.rods) = n)
    ∧ (∀ st : GameState, st.currentMoveIndex < st.moves.length →
        st.rods.getD ((st.moves.getD st.currentMoveIndex ⟨0, 0⟩).«from») [] = [] →
        (executeMove st).rods = st.rods
        ∧ (executeMove st).currentMoveIndex = st.currentMoveIndex + 1) := by
  refine ⟨?_, ?_, ?_, ?_⟩
  · intro st hf ht
    by_cases hlt : st.currentMoveIndex < st.moves.length
    · rw [executeMove_lt st hlt]
      exact totalDisks_moveDisk _ _ hf ht
    · unfold executeMove
      rw [if_pos (by omega)]
  · intro st hf ht
    by_cases hpos : 0 < st.currentMoveIndex
    · rw [stepBackward_pos st hpos]
      exact totalDisks_undoMove _ _ hf ht
    · rw [stepBackward_zero st (by omega)]
  · intro n hn st h
    obtain ⟨k, hk, rfl⟩ := reachable_stateAt n hn st h
    rw [stateAt_rods, totalDisks_applyMoves _ _ ?_]
    · rw [totalDisks_initRods, Multiset.coe_card, length_initialStack]
    · intro m hm
      obtain ⟨h1, h2, _⟩ := plan_move_shape n hn m (List.mem_of_mem_take hm)
      constructor <;>
        · rw [show ([initialStack n, [], []] : List (List DiskType)).length = 3 from rfl]
          omega
  · intro st hlt hempty
    exact executeMove_empty_pop st hlt hempty

theorem claim_C10_witness :
    totalDisks (executeMove (initializeGame 3 initState0)).rods
        = totalDisks (initializeGame 3 initState0).rods
    ∧ totalDisks (stepBackward (stepForward (initializeGame 3 initState0))).rods
        = totalDisks (stepForward (initializeGame 3 initState0)).rods
    ∧ Multiset.card (totalDisks (initializeGame 3 initState0).rods) = 3
    ∧ (executeMove stEmptySource).rods = stEmptySource.rods
    ∧ (executeMove stEmptySource).currentMoveIndex
        = stEmptySource.currentMoveIndex + 1 := by
  refine ⟨claim_C10_conservation.1 _ (by decide) (by decide),
    claim_C10_conservation.2.1 _ (by decide) (by decide),
    claim_C10_conservation.2.2.1 3 (by decide) _ Relation.ReflTransGen.refl,
    ?_, ?_⟩
  · exact (claim_C10_conservation.2.2.2 stEmptySource (by decide) (by decide)).1
  · exact (claim_C10_conservation.2.2.2 stEmptySource (by decide) (by decide)).2
